import Mathlib

/-!
# Verification of the fpdf2 vector-graphics core

Shallow embedding of the drawing primitives, path elements, graphics style
and graphics-context tree of fpdf2 (`fpdf/drawing_primitives.py`,
`fpdf/drawing.py`, `fpdf/pattern.py`), together with proofs and refutations
of the specified properties.

Python floats are modelled as follows:
* purely rational computations (numeric formatting, 8-bit color conversion,
  gradient stop normalization) are modelled over `ℚ`, with the float
  rounding of `"%.4f"` idealized as round-half-to-even of the scaled value;
* geometric computations (points, transforms, bounding boxes) are modelled
  over `ℝ`; bounding-box coordinates live in an extension of `ℝ` by the
  IEEE special values `+inf`, `-inf` and `nan`, because the code's "empty"
  bounding-box sentinel is `(inf, inf, -inf, -inf)` and arithmetic on it
  (`inf - inf = nan`, comparisons with `nan` are false) is observable
  through `BoundingBox.__eq__` and `BoundingBox.transformed`.
-/

namespace Fpdf2

/-! ## Numeric formatting (`fpdf/drawing_primitives.py`, `number_to_str`) -/

/-- Round-half-to-even of a rational to an integer.  This idealizes the
rounding performed by Python's fixed-point float formatting. -/
def roundHalfEven (q : ℚ) : ℤ :=
  let f : ℤ := ⌊q⌋
  let r : ℚ := q - f
  if r < 1/2 then f
  else if 1/2 < r then f + 1
  else if f % 2 = 0 then f else f + 1

/-- The decimal digit character for `n < 10`. -/
def digitChar (n : ℕ) : Char := Char.ofNat (48 + n)

/-- Zero-padded 4-digit decimal rendering of `n < 10000` (the fractional
part of a `"%.4f"` rendering). -/
def pad4 (n : ℕ) : String :=
  String.mk [digitChar (n / 1000 % 10), digitChar (n / 100 % 10),
             digitChar (n / 10 % 10), digitChar (n % 10)]

/-- Model of Python `f"{number:.4f}"`: sign, integer part, point, and the
fraction rounded to exactly four digits.  A negative number whose magnitude
rounds to zero keeps its sign, just as float formatting keeps it. -/
def formatFixed4 (q : ℚ) : String :=
  (if q < 0 then "-" else "")
    ++ toString ((roundHalfEven (|q| * 10000)).toNat / 10000)
    ++ "." ++ pad4 ((roundHalfEven (|q| * 10000)).toNat % 10000)

/-- Python `str.rstrip` for a single strip character: remove every trailing
occurrence of `c`. -/
def rstrip (s : String) (c : Char) : String :=
  String.mk (((s.data.reverse).dropWhile (· == c)).reverse)

/-- `number_to_str` from `fpdf/drawing_primitives.py`:
`f"{number:.4f}".rstrip("0").rstrip(".")`. -/
def number_to_str (q : ℚ) : String :=
  rstrip (rstrip (formatFixed4 q) '0') '.'

theorem roundHalfEven_eq_zero (q : ℚ) (h0 : 0 ≤ q) (h : q < 1/2) :
    roundHalfEven q = 0 := by
  have hf : ⌊q⌋ = 0 := by
    rw [Int.floor_eq_zero_iff]
    exact ⟨h0, by linarith⟩
  unfold roundHalfEven
  rw [hf]
  simp only [Int.cast_zero, sub_zero]
  rw [if_pos h]

/-- Shared evaluation lemma: every rational strictly between `-0.00005` and
`0` formats as `"-0"`: the magnitude rounds to four zero fractional digits,
the sign survives, and stripping leaves the bare `"-0"`. -/
theorem number_to_str_neg_small (x : ℚ) (h1 : -1/20000 < x) (h2 : x < 0) :
    number_to_str x = "-0" := by
  have hr : roundHalfEven (|x| * 10000) = 0 := by
    apply roundHalfEven_eq_zero
    · positivity
    · rw [abs_of_neg h2]; linarith
  unfold number_to_str formatFixed4
  rw [hr, if_pos h2]
  rfl

/-- Shared evaluation lemma: zero formats as `"0"`. -/
theorem number_to_str_zero : number_to_str 0 = "0" := by
  have hr : roundHalfEven (|(0 : ℚ)| * 10000) = 0 := by
    apply roundHalfEven_eq_zero <;> simp
  unfold number_to_str formatFixed4
  rw [hr, if_neg (lt_irrefl (0 : ℚ))]
  rfl

/-- C1 (counterexample): the input `-0.00004` lies in the interval
`(-0.00005, 0]` on which the claim requires the output `"0"`, yet
`number_to_str` returns `"-0"`.  Negative zero is not normalized away. -/
theorem number_to_str_claimed_normalization_fails :
    -1/20000 < (-1/25000 : ℚ) ∧ (-1/25000 : ℚ) ≤ 0 ∧
      number_to_str (-1/25000 : ℚ) ≠ "0" := by
  refine ⟨by norm_num, by norm_num, ?_⟩
  rw [number_to_str_neg_small (-1/25000 : ℚ) (by norm_num) (by norm_num)]
  decide

/-- C1 (amended): for every `x` with `-0.00005 < x ≤ 0` the formatter
returns `"0"` when `x = 0` and `"-0"` otherwise; trailing zeros and the
trailing point are stripped, but negative zero is *not* normalized away. -/
theorem number_to_str_near_zero (x : ℚ) (h1 : -1/20000 < x) (h2 : x ≤ 0) :
    number_to_str x = if x = 0 then "0" else "-0" := by
  by_cases hx : x = 0
  · rw [if_pos hx, hx, number_to_str_zero]
  · rw [if_neg hx, number_to_str_neg_small x h1 (lt_of_le_of_ne h2 hx)]

/-- C1 (witness): the amended theorem evaluated at `x = -0.00004`. -/
theorem number_to_str_near_zero_witness :
    number_to_str (-1/25000 : ℚ) = "-0" := by
  have h := number_to_str_near_zero (-1/25000 : ℚ) (by norm_num) (by norm_num)
  rwa [if_neg (by norm_num : ¬ (-1/25000 : ℚ) = 0)] at h

/-! ## Device colors (`fpdf/drawing_primitives.py`) -/

/-- A PDF device color: `DeviceGray`, `DeviceRGB` or `DeviceCMYK`, each with
an optional alpha component. -/
inductive Color where
  | gray (g : ℚ) (a : Option ℚ)
  | rgb (r g b : ℚ) (a : Option ℚ)
  | cmyk (c m y k : ℚ) (a : Option ℚ)
deriving DecidableEq

/-- `check_range` from `fpdf/drawing_primitives.py`: raise (model: return an
error) unless `minimum <= value <= maximum`. -/
def check_range (value : ℚ) (minimum : ℚ := 0) (maximum : ℚ := 1) :
    Except String ℚ :=
  if minimum ≤ value ∧ value ≤ maximum then .ok value
  else .error "value not in range"

/-- `DeviceGray.__new__`: range-check the optional alpha, then the gray
component. -/
def DeviceGray.new (g : ℚ) (a : Option ℚ := none) : Except String Color := do
  match a with
  | some a0 => _ ← check_range a0
  | none => pure ()
  let g0 ← check_range g
  return .gray g0 a

/-- `DeviceRGB.__new__`: range-check the optional alpha, then each of the
three color components. -/
def DeviceRGB.new (r g b : ℚ) (a : Option ℚ := none) : Except String Color := do
  match a with
  | some a0 => _ ← check_range a0
  | none => pure ()
  let r0 ← check_range r
  let g0 ← check_range g
  let b0 ← check_range b
  return .rgb r0 g0 b0 a

/-- `rgb8` from `fpdf/drawing_primitives.py`: build a device color from
8-bit components; an achromatic triple without alpha collapses to
`DeviceGray`. -/
def rgb8 (r g b : ℚ) (a : Option ℚ := none) : Except String Color :=
  match a with
  | none =>
      if r = g ∧ g = b then DeviceGray.new (r / 255)
      else DeviceRGB.new (r / 255) (g / 255) (b / 255) none
  | some a0 => DeviceRGB.new (r / 255) (g / 255) (b / 255) (some (a0 / 255))

/-- The numeric branch of `convert_to_device_color` from
`fpdf/drawing_primitives.py` (the branches accepting an existing color
object, a hex string or a sequence merely re-dispatch to this one): a black
triple or a single value with `g` left at its `-1` default becomes
`DeviceGray`, anything else `DeviceRGB`. -/
def convert_to_device_color (r : ℚ) (g : ℚ := -1) (b : ℚ := -1) :
    Except String Color :=
  if (r = 0 ∧ g = 0 ∧ b = 0) ∨ g = -1 then DeviceGray.new (r / 255)
  else DeviceRGB.new (r / 255) (g / 255) (b / 255) none

/-- C10: an achromatic 8-bit triple without alpha produces `DeviceGray
(r/255)` from `rgb8`, never `DeviceRGB`; `convert_to_device_color` likewise
yields `DeviceGray` both on the explicit black triple `(0, 0, 0)` (the
`(r, g, b) == (0, 0, 0)` disjunct of its guard) and on a single numeric
value with `g` and `b` left at their `-1` defaults (the `g == -1`
disjunct). -/
theorem rgb8_achromatic_gray (r : ℚ) (h0 : 0 ≤ r) (h1 : r ≤ 255) :
    rgb8 r r r none = .ok (.gray (r / 255) none) ∧
      convert_to_device_color 0 0 0 = .ok (.gray 0 none) ∧
      convert_to_device_color 0 = .ok (.gray 0 none) ∧
      convert_to_device_color r = .ok (.gray (r / 255) none) := by
  have hrange : check_range (r / 255) = .ok (r / 255) := by
    unfold check_range
    rw [if_pos ⟨by positivity, by linarith [(div_le_one (by norm_num : (0:ℚ) < 255)).mpr h1]⟩]
  have h00 : check_range (0 : ℚ) = .ok 0 := by
    unfold check_range; norm_num
  refine ⟨?_, ?_, ?_, ?_⟩
  · unfold rgb8 DeviceGray.new
    rw [if_pos ⟨rfl, rfl⟩]
    simp [hrange]
  · -- the black triple takes the left disjunct of the guard
    unfold convert_to_device_color DeviceGray.new
    rw [if_pos (Or.inl ⟨rfl, rfl, rfl⟩)]
    simp [h00]
  · unfold convert_to_device_color DeviceGray.new
    rw [if_pos (Or.inr rfl)]
    simp [h00]
  · unfold convert_to_device_color DeviceGray.new
    rw [if_pos (Or.inr rfl)]
    simp [hrange]

/-- C10 (witness): the theorem evaluated at the 8-bit value `128`,
including the explicit black-triple call. -/
theorem rgb8_achromatic_gray_witness :
    rgb8 128 128 128 none = .ok (.gray (128 / 255) none) ∧
      convert_to_device_color 0 0 0 = .ok (.gray 0 none) ∧
      convert_to_device_color 0 = .ok (.gray 0 none) ∧
      convert_to_device_color 128 = .ok (.gray (128 / 255) none) :=
  rgb8_achromatic_gray 128 (by norm_num) (by norm_num)

/-! ## Gradient stop normalization (`fpdf/pattern.py`)

`shape_linear_gradient` and `shape_radial_gradient` contain a verbatim-
duplicated four-step stop normalization pipeline (clamp, stable sort,
merge near-duplicates with the last writer winning, synthesize boundary
stops).  The pipeline is factored out here once and used by both
embeddings.  Stop colors are an opaque payload type `α`. -/

/-- The local `TOLERANCE = 1e-9` of the shape-gradient helpers. -/
def TOLERANCE : ℚ := 1/1000000000

/-- Step 1 clamping: `0.0 if off < 0.0 else 1.0 if off > 1.0 else off`. -/
def clampStop (off : ℚ) : ℚ := if off < 0 then 0 else if 1 < off then 1 else off

/-- Key order of the stop sort (`normalized.sort(key=lambda t: t[0])`). -/
def stopLE {α : Type} (a b : ℚ × α) : Prop := a.1 ≤ b.1

instance {α : Type} : DecidableRel (@stopLE α) :=
  fun a b => inferInstanceAs (Decidable (a.1 ≤ b.1))

instance {α : Type} : IsTotal (ℚ × α) stopLE := ⟨fun a b => le_total a.1 b.1⟩

instance {α : Type} : IsTrans (ℚ × α) stopLE := ⟨fun _ _ _ => le_trans⟩

/-- Step 2 sorting.  Python `list.sort` is a stable sort by the offset key;
a stable insertion sort produces the identical list. -/
def sortStops {α : Type} (l : List (ℚ × α)) : List (ℚ × α) :=
  l.insertionSort stopLE

/-- Step 3 near-duplicate merge.  The Python loop keeps an accumulator and,
whenever the incoming offset is within `TOLERANCE` of the last kept stop,
*replaces* that stop with the incoming one (last writer wins); otherwise it
appends.  Equivalently, a stop is dropped exactly when the next stop in the
sorted order is within `TOLERANCE` of it. -/
def mergeStops {α : Type} : List (ℚ × α) → List (ℚ × α)
  | [] => []
  | [x] => [x]
  | x :: y :: t =>
      if |x.1 - y.1| ≤ TOLERANCE then mergeStops (y :: t)
      else x :: mergeStops (y :: t)

/-- Step 3b: a single remaining stop is flattened into a two-stop constant
gradient. -/
def flattenSingle {α : Type} : List (ℚ × α) → List (ℚ × α)
  | [(_, c)] => [(0, c), (1, c)]
  | l => l

/-- Step 4a: `if abs(merged[0][0] - 0.0) > TOLERANCE: merged.insert(0, (0.0,
merged[0][1]))`. -/
def ensureStart {α : Type} (l : List (ℚ × α)) : List (ℚ × α) :=
  match l with
  | [] => []
  | (o, c) :: _ => if TOLERANCE < |o - 0| then (0, c) :: l else l

/-- Step 4b: `if abs(merged[-1][0] - 1.0) > TOLERANCE: merged.append((1.0,
merged[-1][1]))`. -/
def ensureEnd {α : Type} (l : List (ℚ × α)) : List (ℚ × α) :=
  match l.getLast? with
  | none => l
  | some (o, c) => if TOLERANCE < |o - 1| then l ++ [(1, c)] else l

/-- Step 4: synthesize a stop at offset 0 (resp. 1) when the first (resp.
last) stop is farther than `TOLERANCE` from it. -/
def ensureEndpoints {α : Type} (l : List (ℚ × α)) : List (ℚ × α) :=
  ensureEnd (ensureStart l)

/-- The full normalization pipeline shared by `shape_linear_gradient` and
`shape_radial_gradient`. -/
def normalizeStops {α : Type} (stops : List (ℚ × α)) : List (ℚ × α) :=
  ensureEndpoints (flattenSingle (mergeStops (sortStops
    (stops.map fun s => (clampStop s.1, s.2)))))

/-- The `LinearGradient` constructed by `shape_linear_gradient`, recording
the constructor arguments it is passed. -/
structure LinearGradient (α : Type) where
  from_x : ℚ
  from_y : ℚ
  to_x : ℚ
  to_y : ℚ
  colors : List α
  bounds : List ℚ
  extend_before : Bool
  extend_after : Bool
deriving DecidableEq

/-- The `RadialGradient` constructed by `shape_radial_gradient`. -/
structure RadialGradient (α : Type) where
  start_circle_x : ℚ
  start_circle_y : ℚ
  start_circle_radius : ℚ
  end_circle_x : ℚ
  end_circle_y : ℚ
  end_circle_radius : ℚ
  colors : List α
  bounds : List ℚ
  extend_before : Bool
  extend_after : Bool
deriving DecidableEq

/-- `shape_linear_gradient` from `fpdf/pattern.py`. -/
def shape_linear_gradient {α : Type} (x1 y1 x2 y2 : ℚ)
    (stops : List (ℚ × α)) : Except String (LinearGradient α) :=
  if stops.isEmpty then .error "At least one stop is required"
  else
    let merged := normalizeStops stops
    .ok { from_x := x1, from_y := y1, to_x := x2, to_y := y2
          colors := merged.map Prod.snd
          bounds := ((merged.drop 1).dropLast).map Prod.fst
          extend_before := true, extend_after := true }

/-- `shape_radial_gradient` from `fpdf/pattern.py`. -/
def shape_radial_gradient {α : Type} (cx cy r : ℚ) (stops : List (ℚ × α))
    (fx fy : Option ℚ := none) (fr : ℚ := 0) :
    Except String (RadialGradient α) :=
  if stops.isEmpty then .error "At least one stop is required"
  else
    let merged := normalizeStops stops
    if r < 0 then .error "Outer radius r must be >= 0"
    else
      let fr2 := if fr < 0 then 0 else fr
      let fx2 := fx.getD cx
      let fy2 := fy.getD cy
      let fr3 := if r < fr2 then r else fr2
      .ok { start_circle_x := fx2, start_circle_y := fy2
            start_circle_radius := fr3
            end_circle_x := cx, end_circle_y := cy, end_circle_radius := r
            colors := merged.map Prod.snd
            bounds := ((merged.drop 1).dropLast).map Prod.fst
            extend_before := true, extend_after := true }

/-- The gap relation obtained after merging: consecutive kept stops are
separated by strictly more than `TOLERANCE`. -/
def stopGap {α : Type} (a b : ℚ × α) : Prop := TOLERANCE < b.1 - a.1

theorem clampStop_range (o : ℚ) : 0 ≤ clampStop o ∧ clampStop o ≤ 1 := by
  unfold clampStop
  split
  · norm_num
  · split
    · norm_num
    · constructor <;> linarith [not_lt.mp (by assumption : ¬ o < 0),
        not_lt.mp (by assumption : ¬ 1 < o)]

theorem mergeStops_ne_nil {α : Type} :
    ∀ (l : List (ℚ × α)), l ≠ [] → mergeStops l ≠ [] := by
  intro l
  induction l with
  | nil => simp
  | cons x t ih =>
    intro _
    cases t with
    | nil => simp [mergeStops]
    | cons y t2 =>
      rw [mergeStops]
      split
      · exact ih (by simp)
      · simp

theorem mergeStops_sublist {α : Type} :
    ∀ (l : List (ℚ × α)), (mergeStops l).Sublist l := by
  intro l
  induction l with
  | nil => simp [mergeStops]
  | cons x t ih =>
    cases t with
    | nil => simp [mergeStops]
    | cons y t2 =>
      rw [mergeStops]
      split
      · exact ih.cons x
      · exact ih.cons₂ x

theorem mergeStops_head_key {α : Type} :
    ∀ (t : List (ℚ × α)) (x : ℚ × α), (x :: t).Sorted stopLE →
      ∀ z ∈ (mergeStops (x :: t)).head?, x.1 ≤ z.1 := by
  intro t
  induction t with
  | nil =>
    intro x _ z hz
    simp [mergeStops] at hz
    rw [hz]
  | cons y t2 ih =>
    intro x hs z hz
    have hxy : x.1 ≤ y.1 := (List.sorted_cons.mp hs).1 y (by simp)
    rw [mergeStops] at hz
    split at hz
    · exact le_trans hxy (ih y (List.sorted_cons.mp hs).2 z hz)
    · simp at hz
      rw [hz]

theorem mergeStops_chain {α : Type} :
    ∀ (l : List (ℚ × α)), l.Sorted stopLE →
      (mergeStops l).Chain' stopGap := by
  intro l
  induction l with
  | nil => simp [mergeStops]
  | cons x t ih =>
    intro hs
    cases t with
    | nil => simp [mergeStops]
    | cons y t2 =>
      have hs2 : (y :: t2).Sorted stopLE := (List.sorted_cons.mp hs).2
      rw [mergeStops]
      split
      · exact ih hs2
      · rename_i hfar
        rw [List.chain'_cons']
        refine ⟨?_, ih hs2⟩
        intro z hz
        have hyz : y.1 ≤ z.1 := mergeStops_head_key t2 y hs2 z hz
        have hxy : x.1 ≤ y.1 := (List.sorted_cons.mp hs).1 y (by simp)
        have : TOLERANCE < |x.1 - y.1| := not_le.mp hfar
        rw [abs_of_nonpos (by linarith)] at this
        unfold stopGap
        linarith

theorem flattenSingle_spec {α : Type} (l : List (ℚ × α)) (hne : l ≠ [])
    (hch : l.Chain' stopGap) (hrg : ∀ p ∈ l, 0 ≤ p.1 ∧ p.1 ≤ 1) :
    flattenSingle l ≠ [] ∧ (flattenSingle l).Chain' stopGap ∧
      (∀ p ∈ flattenSingle l, 0 ≤ p.1 ∧ p.1 ≤ 1) := by
  match l with
  | [] => exact absurd rfl hne
  | [(o, c)] =>
    refine ⟨by simp [flattenSingle], ?_, ?_⟩
    · simp [flattenSingle, List.chain'_cons, stopGap, TOLERANCE]
      norm_num
    · intro p hp
      simp [flattenSingle] at hp
      rcases hp with h | h <;> rw [h] <;> norm_num
  | x :: y :: t =>
    exact ⟨by simp [flattenSingle], by simpa [flattenSingle] using hch,
      by simpa [flattenSingle] using hrg⟩

theorem ensureStart_spec {α : Type} (l : List (ℚ × α)) (hne : l ≠ [])
    (hch : l.Chain' stopGap) (hrg : ∀ p ∈ l, 0 ≤ p.1 ∧ p.1 ≤ 1) :
    ensureStart l ≠ [] ∧ (ensureStart l).Chain' stopGap ∧
      (∀ p ∈ ensureStart l, 0 ≤ p.1 ∧ p.1 ≤ 1) ∧
      (∀ p ∈ (ensureStart l).head?, |p.1 - 0| ≤ TOLERANCE) := by
  match l with
  | [] => exact absurd rfl hne
  | (o, c) :: rest =>
    have ho01 : 0 ≤ o ∧ o ≤ 1 := hrg (o, c) (by simp)
    simp only [ensureStart]
    split
    · rename_i hguard
      refine ⟨by simp, ?_, ?_, ?_⟩
      · rw [List.chain'_cons']
        refine ⟨?_, hch⟩
        intro z hz
        simp at hz
        rw [← hz]
        unfold stopGap
        rw [abs_of_nonneg (by linarith [ho01.1])] at hguard
        simpa using hguard
      · intro p hp
        rcases List.mem_cons.mp hp with h | h
        · rw [h]; norm_num
        · exact hrg p h
      · intro p hp
        simp at hp
        rw [← hp]
        norm_num [TOLERANCE]
    · rename_i hguard
      refine ⟨by simp, hch, hrg, ?_⟩
      intro p hp
      simp at hp
      rw [← hp]
      simpa using not_lt.mp hguard

theorem ensureEnd_spec {α : Type} (l : List (ℚ × α)) (hne : l ≠ [])
    (hch : l.Chain' stopGap) (hrg : ∀ p ∈ l, 0 ≤ p.1 ∧ p.1 ≤ 1)
    (hhd : ∀ p ∈ l.head?, |p.1 - 0| ≤ TOLERANCE) :
    ensureEnd l ≠ [] ∧ (ensureEnd l).Chain' stopGap ∧
      (∀ p ∈ ensureEnd l, 0 ≤ p.1 ∧ p.1 ≤ 1) ∧
      (∀ p ∈ (ensureEnd l).head?, |p.1 - 0| ≤ TOLERANCE) ∧
      (∀ p ∈ (ensureEnd l).getLast?, |p.1 - 1| ≤ TOLERANCE) := by
  obtain ⟨a, t, hat⟩ : ∃ a t, l = a :: t := by
    cases l with
    | nil => exact absurd rfl hne
    | cons a t => exact ⟨a, t, rfl⟩
  obtain ⟨lst, hlst⟩ : ∃ z, l.getLast? = some z := by
    rw [hat]
    exact ⟨(a :: t).getLast (by simp), List.getLast?_eq_getLast _ _⟩
  have hlstmem : lst ∈ l := by
    obtain ⟨hne2, h2⟩ := List.mem_getLast?_eq_getLast
      (show lst ∈ l.getLast? from hlst ▸ rfl)
    rw [h2]
    exact List.getLast_mem hne2
  obtain ⟨ol, cl⟩ := lst
  have hol : 0 ≤ ol ∧ ol ≤ 1 := hrg (ol, cl) hlstmem
  have heq : ensureEnd l = if TOLERANCE < |ol - 1| then l ++ [(1, cl)] else l := by
    unfold ensureEnd
    rw [hlst]
  rw [heq]
  split
  · rename_i hguard
    have hgap : ∀ z ∈ l.getLast?, ∀ y ∈ [((1 : ℚ), cl)].head?, stopGap z y := by
      intro z hz y hy
      rw [hlst] at hz
      simp at hz hy
      rw [← hz, ← hy]
      unfold stopGap
      rw [abs_of_nonpos (by linarith [hol.2])] at hguard
      simpa using hguard
    refine ⟨by simp [hat], ?_, ?_, ?_, ?_⟩
    · exact List.chain'_append.mpr ⟨hch, by simp, hgap⟩
    · intro p hp
      rcases List.mem_append.mp hp with h | h
      · exact hrg p h
      · simp at h
        rw [h]; norm_num
    · intro p hp
      rw [hat] at hp
      simp at hp
      rw [← hp]
      exact hhd a (by rw [hat]; rfl)
    · intro p hp
      rw [List.getLast?_concat] at hp
      simp at hp
      rw [← hp]
      norm_num [TOLERANCE]
  · rename_i hguard
    refine ⟨hne, hch, hrg, hhd, ?_⟩
    intro p hp
    rw [hlst] at hp
    simp at hp
    rw [← hp]
    simpa using not_lt.mp hguard

theorem ensureEndpoints_spec {α : Type} (l : List (ℚ × α)) (hne : l ≠ [])
    (hch : l.Chain' stopGap) (hrg : ∀ p ∈ l, 0 ≤ p.1 ∧ p.1 ≤ 1) :
    ensureEndpoints l ≠ [] ∧ (ensureEndpoints l).Chain' stopGap ∧
      (∀ p ∈ ensureEndpoints l, 0 ≤ p.1 ∧ p.1 ≤ 1) ∧
      (∀ p ∈ (ensureEndpoints l).head?, |p.1 - 0| ≤ TOLERANCE) ∧
      (∀ p ∈ (ensureEndpoints l).getLast?, |p.1 - 1| ≤ TOLERANCE) := by
  obtain ⟨h1, h2, h3, h4⟩ := ensureStart_spec l hne hch hrg
  simpa [ensureEndpoints] using ensureEnd_spec (ensureStart l) h1 h2 h3 h4

theorem normalizeStops_spec {α : Type} (stops : List (ℚ × α)) (h : stops ≠ []) :
    normalizeStops stops ≠ [] ∧ (normalizeStops stops).Chain' stopGap ∧
      (∀ p ∈ normalizeStops stops, 0 ≤ p.1 ∧ p.1 ≤ 1) ∧
      (∀ p ∈ (normalizeStops stops).head?, |p.1 - 0| ≤ TOLERANCE) ∧
      (∀ p ∈ (normalizeStops stops).getLast?, |p.1 - 1| ≤ TOLERANCE) := by
  have hl0ne : (stops.map fun s => (clampStop s.1, s.2)) ≠ [] := by
    simpa using h
  have hl0rg : ∀ p ∈ stops.map fun s => (clampStop s.1, s.2),
      0 ≤ p.1 ∧ p.1 ≤ 1 := by
    intro p hp
    obtain ⟨s, _, hs⟩ := List.mem_map.mp hp
    rw [← hs]
    exact clampStop_range s.1
  have hl1srt : (sortStops (stops.map fun s => (clampStop s.1, s.2))).Sorted
      stopLE := List.sorted_insertionSort _ _
  have hl1perm := List.perm_insertionSort (@stopLE α)
    (stops.map fun s => (clampStop s.1, s.2))
  have hl1ne : sortStops (stops.map fun s => (clampStop s.1, s.2)) ≠ [] := by
    intro hcon
    unfold sortStops at hcon
    rw [hcon] at hl1perm
    exact hl0ne hl1perm.symm.eq_nil
  have hl1rg : ∀ p ∈ sortStops (stops.map fun s => (clampStop s.1, s.2)),
      0 ≤ p.1 ∧ p.1 ≤ 1 := fun p hp => hl0rg p (hl1perm.mem_iff.mp hp)
  have hl2ch := mergeStops_chain _ hl1srt
  have hl2ne := mergeStops_ne_nil _ hl1ne
  have hl2rg : ∀ p ∈ mergeStops (sortStops
      (stops.map fun s => (clampStop s.1, s.2))), 0 ≤ p.1 ∧ p.1 ≤ 1 :=
    fun p hp => hl1rg p ((mergeStops_sublist _).subset hp)
  obtain ⟨h3ne, h3ch, h3rg⟩ := flattenSingle_spec _ hl2ne hl2ch hl2rg
  simpa [normalizeStops] using ensureEndpoints_spec _ h3ne h3ch h3rg

theorem normalizeStops_single {α : Type} (o : ℚ) (c : α) :
    normalizeStops [(o, c)] = [(0, c), (1, c)] := by
  norm_num [normalizeStops, sortStops, List.insertionSort, List.orderedInsert,
    mergeStops, flattenSingle, ensureEndpoints, ensureStart, ensureEnd,
    TOLERANCE]

/-- C7 (counterexample): for the two-stop input `[(1e-10, c0), (0.5, c1)]`
the first normalized stop keeps offset `1e-10`: it is within the `1e-9`
tolerance of `0`, so no boundary stop at exactly `0` is synthesized, and the
normalized list does *not* begin with offset `0` as claimed. -/
theorem normalizeStops_start_not_exact :
    normalizeStops [((1:ℚ)/10000000000, (0:ℕ)), (1/2, 1)] =
      [(1/10000000000, 0), (1/2, 1), (1, 1)] ∧
      ((1:ℚ)/10000000000) ≠ 0 := by
  have e1 : clampStop ((1:ℚ)/10000000000) = 1/10000000000 := by
    unfold clampStop
    rw [if_neg (by norm_num), if_neg (by norm_num)]
  have e2 : clampStop ((1:ℚ)/2) = 1/2 := by
    unfold clampStop
    rw [if_neg (by norm_num), if_neg (by norm_num)]
  have hs : sortStops ([((1:ℚ)/10000000000, (0:ℕ)), (1/2, 1)].map
      fun s => (clampStop s.1, s.2)) =
      [((1:ℚ)/10000000000, (0:ℕ)), (1/2, 1)] := by
    simp only [List.map, e1, e2, sortStops, List.insertionSort,
      List.orderedInsert]
    rw [if_pos (show stopLE ((1:ℚ)/10000000000, (0:ℕ)) (1/2, 1) by
      norm_num [stopLE])]
  have hm : mergeStops [((1:ℚ)/10000000000, (0:ℕ)), (1/2, 1)] =
      [((1:ℚ)/10000000000, (0:ℕ)), (1/2, 1)] := by
    simp only [mergeStops]
    rw [if_neg (show ¬ |(1:ℚ)/10000000000 - 1/2| ≤ TOLERANCE by
      rw [abs_of_nonpos (by norm_num)]
      norm_num [TOLERANCE])]
  have hf : flattenSingle [((1:ℚ)/10000000000, (0:ℕ)), (1/2, 1)] =
      [((1:ℚ)/10000000000, (0:ℕ)), (1/2, 1)] := rfl
  have hstart : ensureStart [((1:ℚ)/10000000000, (0:ℕ)), (1/2, 1)] =
      [((1:ℚ)/10000000000, (0:ℕ)), (1/2, 1)] := by
    simp only [ensureStart]
    rw [if_neg (show ¬ TOLERANCE < |(1:ℚ)/10000000000 - 0| by
      rw [abs_of_nonneg (by norm_num)]
      norm_num [TOLERANCE])]
  have hend : ensureEnd [((1:ℚ)/10000000000, (0:ℕ)), (1/2, 1)] =
      [((1:ℚ)/10000000000, (0:ℕ)), (1/2, 1), (1, 1)] := by
    simp only [ensureEnd, List.getLast?, List.getLast]
    rw [if_pos (show TOLERANCE < |(1:ℚ)/2 - 1| by
      rw [abs_of_nonpos (by norm_num)]
      norm_num [TOLERANCE])]
    rfl
  refine ⟨?_, by norm_num⟩
  unfold normalizeStops ensureEndpoints
  rw [hs, hm, hf, hstart, hend]

/-- C7 (amended): for every non-empty stop list, `shape_linear_gradient` and
`shape_radial_gradient` succeed and expose the shared normalized stop list
(colors, plus interior offsets as bounds); the normalized list is clamped to
`[0, 1]`, strictly sorted with consecutive offsets more than `1e-9` apart
(hence deduplicated, with the last writer winning ties), begins with a stop
whose offset is within `1e-9` of `0` and ends with one within `1e-9` of `1`
(exactly `0`/`1` whenever the boundary stop is synthesized), and a
single-stop input becomes a flat two-stop gradient at exactly `0` and `1`. -/
theorem shape_gradient_stops_normalized {α : Type} (x1 y1 x2 y2 cx cy r : ℚ)
    (hr : ¬ r < 0) (stops : List (ℚ × α)) (h : stops ≠ []) :
    (shape_linear_gradient x1 y1 x2 y2 stops = .ok
      { from_x := x1, from_y := y1, to_x := x2, to_y := y2
        colors := (normalizeStops stops).map Prod.snd
        bounds := (((normalizeStops stops).drop 1).dropLast).map Prod.fst
        extend_before := true, extend_after := true }) ∧
    (shape_radial_gradient cx cy r stops = .ok
      { start_circle_x := cx, start_circle_y := cy, start_circle_radius := 0
        end_circle_x := cx, end_circle_y := cy, end_circle_radius := r
        colors := (normalizeStops stops).map Prod.snd
        bounds := (((normalizeStops stops).drop 1).dropLast).map Prod.fst
        extend_before := true, extend_after := true }) ∧
    normalizeStops stops ≠ [] ∧
    (normalizeStops stops).Chain' stopGap ∧
    (∀ p ∈ normalizeStops stops, 0 ≤ p.1 ∧ p.1 ≤ 1) ∧
    (∀ p ∈ (normalizeStops stops).head?, |p.1 - 0| ≤ TOLERANCE) ∧
    (∀ p ∈ (normalizeStops stops).getLast?, |p.1 - 1| ≤ TOLERANCE) ∧
    (∀ (o : ℚ) (c : α), normalizeStops [(o, c)] = [(0, c), (1, c)]) := by
  have hempty : stops.isEmpty = false := by
    cases stops with
    | nil => exact absurd rfl h
    | cons a t => rfl
  obtain ⟨s1, s2, s3, s4, s5⟩ := normalizeStops_spec stops h
  refine ⟨?_, ?_, s1, s2, s3, s4, s5, fun o c => normalizeStops_single o c⟩
  · unfold shape_linear_gradient
    rw [hempty]
    rfl
  · unfold shape_radial_gradient
    rw [hempty]
    simp only [Bool.false_eq_true, if_false, if_neg hr,
      if_neg (lt_irrefl (0 : ℚ)), Option.getD]

/-- C7 (witness): the amended theorem applied to the single-stop input
`[(0.5, 7)]`. -/
theorem shape_gradient_stops_normalized_witness :
    normalizeStops [((1:ℚ)/2, (7:ℕ))] ≠ [] ∧
      (normalizeStops [((1:ℚ)/2, (7:ℕ))]).Chain' stopGap ∧
      ∀ p ∈ (normalizeStops [((1:ℚ)/2, (7:ℕ))]).head?,
        |p.1 - 0| ≤ TOLERANCE := by
  have h := shape_gradient_stops_normalized (α := ℕ) 0 0 1 1 0 0 5
    (by norm_num) [((1:ℚ)/2, 7)] (by simp)
  exact ⟨h.2.2.1, h.2.2.2.1, h.2.2.2.2.2.1⟩

/-! ## Geometry (`fpdf/drawing_primitives.py` and `fpdf/drawing.py`)

From here on the embedding works over `ℝ` and is classical/noncomputable,
because the source works on floats with square roots and comparisons.
Bounding-box coordinates use `Fl`, the reals extended with the IEEE special
values: the empty-box sentinel is `(inf, inf, -inf, -inf)` and the code
performs arithmetic and comparisons on it (`inf - inf = nan`; every
comparison with `nan` is false), which is observable through
`BoundingBox.__eq__` and `BoundingBox.transformed`. -/

/-- A Python float value: a finite real or one of the IEEE special values
`-inf`, `+inf`, `nan`. -/
inductive Fl where
  | nan : Fl
  | ninf : Fl
  | fin : ℝ → Fl
  | pinf : Fl

/-- Strict `<` on floats; any comparison involving `nan` is false. -/
def Fl.lt : Fl → Fl → Prop
  | .fin x, .fin y => x < y
  | .ninf, .fin _ => True
  | .ninf, .pinf => True
  | .fin _, .pinf => True
  | _, _ => False

/-- Non-strict `<=` on floats; any comparison involving `nan` is false. -/
def Fl.le : Fl → Fl → Prop
  | .fin x, .fin y => x ≤ y
  | .ninf, .ninf => True
  | .ninf, .fin _ => True
  | .ninf, .pinf => True
  | .fin _, .pinf => True
  | .pinf, .pinf => True
  | _, _ => False

/-- IEEE float addition on the modelled values: `nan` propagates and
`inf + (-inf) = nan`. -/
def Fl.add : Fl → Fl → Fl
  | .nan, _ => .nan
  | _, .nan => .nan
  | .pinf, .ninf => .nan
  | .ninf, .pinf => .nan
  | .pinf, _ => .pinf
  | _, .pinf => .pinf
  | .ninf, _ => .ninf
  | _, .ninf => .ninf
  | .fin x, .fin y => .fin (x + y)

/-- IEEE float negation. -/
def Fl.neg : Fl → Fl
  | .nan => .nan
  | .ninf => .pinf
  | .pinf => .ninf
  | .fin x => .fin (-x)

/-- IEEE float subtraction (`a - b = a + (-b)`); in particular
`inf - inf = nan`. -/
def Fl.sub (a b : Fl) : Fl := a.add b.neg

open Classical in
/-- IEEE float multiplication: `nan` propagates and `inf * 0 = nan`. -/
noncomputable def Fl.mul : Fl → Fl → Fl
  | .nan, _ => .nan
  | _, .nan => .nan
  | .pinf, .pinf => .pinf
  | .pinf, .ninf => .ninf
  | .ninf, .pinf => .ninf
  | .ninf, .ninf => .pinf
  | .pinf, .fin x => if x = 0 then .nan else if 0 < x then .pinf else .ninf
  | .fin x, .pinf => if x = 0 then .nan else if 0 < x then .pinf else .ninf
  | .ninf, .fin x => if x = 0 then .nan else if 0 < x then .ninf else .pinf
  | .fin x, .ninf => if x = 0 then .nan else if 0 < x then .ninf else .pinf
  | .fin x, .fin y => .fin (x * y)

/-- IEEE float absolute value. -/
def Fl.abs : Fl → Fl
  | .nan => .nan
  | .ninf => .pinf
  | .pinf => .pinf
  | .fin x => .fin |x|

/-- The value is finite (neither infinite nor `nan`). -/
def Fl.isFinite : Fl → Prop
  | .fin _ => True
  | _ => False

/-- `Point` from `fpdf/drawing_primitives.py`: an immutable x-y pair.  User
geometry is finite, so the coordinates are plain reals. -/
structure Point where
  x : ℝ
  y : ℝ

/-- `Point.__add__`: componentwise vector addition. -/
def Point.add (p q : Point) : Point := ⟨p.x + q.x, p.y + q.y⟩

/-- `Transform` from `fpdf/drawing_primitives.py`: the 2×3 affine matrix
`(a, b, c, d, e, f)` acting by `[x' y' 1] = [x y 1] · M`. -/
structure Transform where
  a : ℝ
  b : ℝ
  c : ℝ
  d : ℝ
  e : ℝ
  f : ℝ

/-- `Transform.identity()`: `(1, 0, 0, 1, 0, 0)`. -/
def Transform.identity : Transform := ⟨1, 0, 0, 1, 0, 0⟩

/-- `Point.__matmul__`: apply a transform to a point,
`x' = a·x + c·y + e`, `y' = b·x + d·y + f`. -/
def Point.matmul (p : Point) (o : Transform) : Point :=
  ⟨o.a * p.x + o.c * p.y + o.e, o.b * p.x + o.d * p.y + o.f⟩

/-- `Transform.__matmul__`: compose two transforms. -/
def Transform.matmul (s o : Transform) : Transform :=
  ⟨s.a * o.a + s.b * o.c, s.a * o.b + s.b * o.d,
   s.c * o.a + s.d * o.c, s.c * o.b + s.d * o.d,
   s.e * o.a + s.f * o.c + o.e, s.e * o.b + s.f * o.d + o.f⟩

open Classical in
/-- `Transform.inverse()`: raise (model: error) when the determinant
`a·d - b·c` is zero, otherwise the inverse affine transform. -/
noncomputable def Transform.inverse (s : Transform) : Except String Transform :=
  if s.a * s.d - s.b * s.c = 0 then .error "Transform is not invertible"
  else
    .ok ⟨s.d / (s.a * s.d - s.b * s.c), -s.b / (s.a * s.d - s.b * s.c),
         -s.c / (s.a * s.d - s.b * s.c), s.a / (s.a * s.d - s.b * s.c),
         (s.c * s.f - s.d * s.e) / (s.a * s.d - s.b * s.c),
         (s.b * s.e - s.a * s.f) / (s.a * s.d - s.b * s.c)⟩

/-- `Transform.row_norms()`: `(hypot(a, c), hypot(b, d))`, the Euclidean
norms of the two linear-part rows. -/
noncomputable def Transform.row_norms (s : Transform) : ℝ × ℝ :=
  (Real.sqrt (s.a ^ 2 + s.c ^ 2), Real.sqrt (s.b ^ 2 + s.d ^ 2))

/-- C6: applying an invertible transform and then its inverse returns every
point exactly (the model is exact arithmetic, so the float statement
`P @ T @ T.inverse() ≈ P` holds with zero error). -/
theorem point_transform_inverse_roundtrip (P : Point) (T : Transform)
    (h : T.a * T.d - T.b * T.c ≠ 0) :
    ∃ Ti, T.inverse = Except.ok Ti ∧ (P.matmul T).matmul Ti = P := by
  obtain ⟨px, py⟩ := P
  obtain ⟨a, b, c, d, e, f⟩ := T
  simp only at h
  refine ⟨_, by rw [Transform.inverse, if_neg h], ?_⟩
  simp only [Point.matmul]
  rw [Point.mk.injEq]
  constructor
  · field_simp
    ring
  · field_simp
    ring

/-- C6 (witness): the round trip through the concrete invertible transform
`(2, 0, 0, 3, 5, 7)` at the point `(1, 1)`. -/
theorem point_transform_inverse_roundtrip_witness :
    ∃ Ti, Transform.inverse ⟨2, 0, 0, 3, 5, 7⟩ = Except.ok Ti ∧
      (Point.matmul ⟨1, 1⟩ ⟨2, 0, 0, 3, 5, 7⟩).matmul Ti = ⟨1, 1⟩ :=
  point_transform_inverse_roundtrip ⟨1, 1⟩ ⟨2, 0, 0, 3, 5, 7⟩ (by norm_num)

/-! ## `BoundingBox` (`fpdf/drawing.py`) -/

open Classical in
/-- Python's builtin `min(a, b)`: `b` if `b < a` else `a` (with float
comparison semantics, so a leading `nan` survives). -/
noncomputable def Fl.pymin (a b : Fl) : Fl := if Fl.lt b a then b else a

open Classical in
/-- Python's builtin `max(a, b)`: `b` if `b > a` else `a`. -/
noncomputable def Fl.pymax (a b : Fl) : Fl := if Fl.lt a b then b else a

/-- `BoundingBox` from `fpdf/drawing.py`: the axis-aligned box
`(x0, y0, x1, y1)` whose coordinates are float values. -/
structure BoundingBox where
  x0 : Fl
  y0 : Fl
  x1 : Fl
  y1 : Fl

/-- `BoundingBox.empty()`: the sentinel `(inf, inf, -inf, -inf)`. -/
def BoundingBox.empty : BoundingBox := ⟨.pinf, .pinf, .ninf, .ninf⟩

/-- `BoundingBox.is_valid()`: `x0 <= x1 and y0 <= y1`. -/
def BoundingBox.is_valid (bb : BoundingBox) : Prop :=
  Fl.le bb.x0 bb.x1 ∧ Fl.le bb.y0 bb.y1

open Classical in
/-- `BoundingBox.merge()`: an invalid operand yields the other operand,
otherwise the coordinatewise min/max union. -/
noncomputable def BoundingBox.merge (s o : BoundingBox) : BoundingBox :=
  if ¬ s.is_valid then o
  else if ¬ o.is_valid then s
  else ⟨Fl.pymin s.x0 o.x0, Fl.pymin s.y0 o.y0,
        Fl.pymax s.x1 o.x1, Fl.pymax s.y1 o.y1⟩

/-- `BoundingBox.__eq__`: every coordinate difference has absolute value
below the fixed `1e-6` tolerance.  With float semantics `inf - inf` is
`nan` and every comparison with `nan` or `inf` is false, so coordinates
compare equal only when both are finite. -/
def BoundingBox.beq (s o : BoundingBox) : Prop :=
  Fl.lt (Fl.abs (Fl.sub s.x0 o.x0)) (.fin (1/1000000)) ∧
  Fl.lt (Fl.abs (Fl.sub s.y0 o.y0)) (.fin (1/1000000)) ∧
  Fl.lt (Fl.abs (Fl.sub s.x1 o.x1)) (.fin (1/1000000)) ∧
  Fl.lt (Fl.abs (Fl.sub s.y1 o.y1)) (.fin (1/1000000))

/-- All four coordinates are finite. -/
def BoundingBox.finite (bb : BoundingBox) : Prop :=
  bb.x0.isFinite ∧ bb.y0.isFinite ∧ bb.x1.isFinite ∧ bb.y1.isFinite

theorem Fl.isFinite_iff (v : Fl) : v.isFinite ↔ ∃ x : ℝ, v = .fin x := by
  cases v <;> simp [Fl.isFinite]

theorem Fl.pymin_comm (x y : ℝ) :
    Fl.pymin (.fin x) (.fin y) = Fl.pymin (.fin y) (.fin x) := by
  unfold Fl.pymin
  rcases lt_trichotomy x y with h | h | h
  · rw [if_neg (by simp [Fl.lt]; linarith), if_pos (by simp [Fl.lt, h])]
  · rw [h]
  · rw [if_pos (by simp [Fl.lt, h]), if_neg (by simp [Fl.lt]; linarith)]

theorem Fl.pymax_comm (x y : ℝ) :
    Fl.pymax (.fin x) (.fin y) = Fl.pymax (.fin y) (.fin x) := by
  unfold Fl.pymax
  rcases lt_trichotomy x y with h | h | h
  · rw [if_pos (by simp [Fl.lt, h]), if_neg (by simp [Fl.lt]; linarith)]
  · rw [h]
  · rw [if_neg (by simp [Fl.lt]; linarith), if_pos (by simp [Fl.lt, h])]

theorem Fl.pymin_fin_isFinite (x y : ℝ) :
    (Fl.pymin (.fin x) (.fin y)).isFinite := by
  unfold Fl.pymin
  split <;> simp [Fl.isFinite]

theorem Fl.pymax_fin_isFinite (x y : ℝ) :
    (Fl.pymax (.fin x) (.fin y)).isFinite := by
  unfold Fl.pymax
  split <;> simp [Fl.isFinite]

theorem BoundingBox.beq_refl_of_finite (b : BoundingBox) (h : b.finite) :
    b.beq b := by
  obtain ⟨h0, h1, h2, h3⟩ := h
  obtain ⟨a, ha⟩ := (Fl.isFinite_iff _).mp h0
  obtain ⟨c, hc⟩ := (Fl.isFinite_iff _).mp h1
  obtain ⟨d, hd⟩ := (Fl.isFinite_iff _).mp h2
  obtain ⟨e, he⟩ := (Fl.isFinite_iff _).mp h3
  unfold BoundingBox.beq
  rw [ha, hc, hd, he]
  simp [Fl.sub, Fl.add, Fl.neg, Fl.abs, Fl.lt]

/-- C5 (counterexample): at `A = B = BoundingBox.empty()` both merge orders
return the empty box, but `==` is false on it — the sentinel's infinite
coordinates subtract to `nan` (`inf - inf`), and `nan < 1e-6` is false.  So
`A.merge(B) == B.merge(A)` fails, and so does
`A.merge(BoundingBox.empty()) == A` at `A = BoundingBox.empty()`. -/
theorem boundingBox_merge_comm_fails_on_empty :
    ¬ (BoundingBox.empty.merge BoundingBox.empty).beq
        (BoundingBox.empty.merge BoundingBox.empty) := by
  have hinv : ¬ BoundingBox.empty.is_valid := by
    simp [BoundingBox.is_valid, BoundingBox.empty, Fl.le]
  rw [BoundingBox.merge, if_pos hinv]
  simp [BoundingBox.beq, BoundingBox.empty, Fl.sub, Fl.add, Fl.neg, Fl.abs,
    Fl.lt]

/-- C5 (amended): merge is commutative up to `==`, and the empty sentinel
is a right identity up to `==`, for the boxes on which `==` can hold at
all: all-finite coordinates, with at least one operand valid for
commutativity and the box itself valid for the identity.  (With both
operands invalid the two orders return the two different operands, and `==`
is never true on a box with an infinite coordinate, so the restriction is
forced.) -/
theorem boundingBox_merge_comm_and_identity (A B : BoundingBox)
    (hA : A.finite) (hB : B.finite) (hv : A.is_valid ∨ B.is_valid) :
    (A.merge B).beq (B.merge A) ∧
      (A.is_valid → (A.merge BoundingBox.empty).beq A) := by
  have hempty : ¬ BoundingBox.empty.is_valid := by
    simp [BoundingBox.is_valid, BoundingBox.empty, Fl.le]
  constructor
  · by_cases hAv : A.is_valid
    · by_cases hBv : B.is_valid
      · -- both valid: the two merges have coordinatewise equal values
        rw [BoundingBox.merge, if_neg (not_not_intro hAv),
          if_neg (not_not_intro hBv), BoundingBox.merge,
          if_neg (not_not_intro hBv), if_neg (not_not_intro hAv)]
        obtain ⟨a0, ha0⟩ := (Fl.isFinite_iff _).mp hA.1
        obtain ⟨a1, ha1⟩ := (Fl.isFinite_iff _).mp hA.2.1
        obtain ⟨a2, ha2⟩ := (Fl.isFinite_iff _).mp hA.2.2.1
        obtain ⟨a3, ha3⟩ := (Fl.isFinite_iff _).mp hA.2.2.2
        obtain ⟨b0, hb0⟩ := (Fl.isFinite_iff _).mp hB.1
        obtain ⟨b1, hb1⟩ := (Fl.isFinite_iff _).mp hB.2.1
        obtain ⟨b2, hb2⟩ := (Fl.isFinite_iff _).mp hB.2.2.1
        obtain ⟨b3, hb3⟩ := (Fl.isFinite_iff _).mp hB.2.2.2
        rw [ha0, ha1, ha2, ha3, hb0, hb1, hb2, hb3]
        rw [Fl.pymin_comm a0 b0, Fl.pymin_comm a1 b1,
          Fl.pymax_comm a2 b2, Fl.pymax_comm a3 b3]
        apply BoundingBox.beq_refl_of_finite
        exact ⟨Fl.pymin_fin_isFinite _ _, Fl.pymin_fin_isFinite _ _,
          Fl.pymax_fin_isFinite _ _, Fl.pymax_fin_isFinite _ _⟩
      · -- A valid, B invalid: both orders return A
        rw [BoundingBox.merge, if_neg (not_not_intro hAv), if_pos hBv,
          BoundingBox.merge, if_pos hBv]
        exact BoundingBox.beq_refl_of_finite A hA
    · -- A invalid, hence B valid: both orders return B
      have hBv : B.is_valid := hv.resolve_left hAv
      rw [BoundingBox.merge, if_pos hAv, BoundingBox.merge,
        if_neg (not_not_intro hBv), if_pos hAv]
      exact BoundingBox.beq_refl_of_finite B hB
  · intro hAv
    rw [BoundingBox.merge, if_neg (not_not_intro hAv), if_pos hempty]
    exact BoundingBox.beq_refl_of_finite A hA

/-- C5 (witness): the amended theorem on the concrete valid finite boxes
`(0, 0, 1, 1)` and `(0, 0, 2, 3)`. -/
theorem boundingBox_merge_comm_and_identity_witness :
    ((BoundingBox.mk (.fin 0) (.fin 0) (.fin 1) (.fin 1)).merge
        (BoundingBox.mk (.fin 0) (.fin 0) (.fin 2) (.fin 3))).beq
      ((BoundingBox.mk (.fin 0) (.fin 0) (.fin 2) (.fin 3)).merge
        (BoundingBox.mk (.fin 0) (.fin 0) (.fin 1) (.fin 1))) ∧
    ((BoundingBox.mk (.fin 0) (.fin 0) (.fin 1) (.fin 1)).is_valid →
      ((BoundingBox.mk (.fin 0) (.fin 0) (.fin 1) (.fin 1)).merge
          BoundingBox.empty).beq
        (BoundingBox.mk (.fin 0) (.fin 0) (.fin 1) (.fin 1))) :=
  boundingBox_merge_comm_and_identity _ _
    (by simp [BoundingBox.finite, Fl.isFinite])
    (by simp [BoundingBox.finite, Fl.isFinite])
    (Or.inl (by simp [BoundingBox.is_valid, Fl.le]))

/-! ## `GraphicsStyle` (`fpdf/drawing.py`)

Only the style properties consulted by `resolve_paint_rule`,
`expanded_to_stroke` and the bounding-box walk are modelled: `paint_rule`,
`intersection_rule`, `fill_color`, `stroke_color`, `stroke_width`,
`stroke_opacity`.  Each property is tri-state: the `INHERIT` sentinel, an
explicit `None`, or a value; the setters guarantee that `paint_rule` and
`intersection_rule` are never `None`, so those two use the two-state form. -/

/-- `PathPaintRule` from `fpdf/enums.py`. -/
inductive PathPaintRule where
  | auto | dontPaint | stroke | fillNonzero | fillEvenodd
  | strokeFillNonzero | strokeFillEvenodd
deriving DecidableEq

/-- `IntersectionRule` from `fpdf/enums.py`. -/
inductive IntersectionRule where
  | nonzero | evenodd
deriving DecidableEq

/-- A tri-state style property: the `INHERIT` sentinel (the `...`
singleton), an explicit `None`, or a concrete value. -/
inductive StyleProp (α : Type) where
  | inherit : StyleProp α
  | none : StyleProp α
  | val : α → StyleProp α

/-- A two-state style property that can never be `None`. -/
inductive InheritOr (α : Type) where
  | inherit : InheritOr α
  | val : α → InheritOr α

/-- Python `x is not None` on a tri-state property, as a boolean. -/
def StyleProp.isNone {α : Type} : StyleProp α → Bool
  | .none => true
  | _ => false

/-- The modelled subset of `GraphicsStyle`. -/
structure GraphicsStyle where
  paint_rule : InheritOr PathPaintRule
  intersection_rule : InheritOr IntersectionRule
  fill_color : StyleProp Color
  stroke_color : StyleProp Color
  stroke_width : StyleProp ℝ
  stroke_opacity : StyleProp ℝ

/-- The default `GraphicsStyle()`: every property `INHERIT`. -/
def GraphicsStyle.default : GraphicsStyle :=
  ⟨.inherit, .inherit, .inherit, .inherit, .inherit, .inherit⟩

/-- Merge one tri-state property: the child's value wherever it is not
`INHERIT`, else the parent's. -/
def StyleProp.mergeWith {α : Type} (parent child : StyleProp α) :
    StyleProp α :=
  match child with
  | .inherit => parent
  | c => c

/-- Merge one two-state property. -/
def InheritOr.mergeWith {α : Type} (parent child : InheritOr α) :
    InheritOr α :=
  match child with
  | .inherit => parent
  | c => c

/-- `GraphicsStyle.merge(parent, child)`.  The source iterates
`MERGE_PROPERTIES` assigning through the property setters; the setters'
side effects (a color with embedded alpha setting the opacity, a stroke
color defaulting the stroke width to 1) are each overwritten by a later
property in the iteration order, so the net result is the plain
per-property left-biased choice modelled here. -/
def GraphicsStyle.merge (parent child : GraphicsStyle) : GraphicsStyle where
  paint_rule := parent.paint_rule.mergeWith child.paint_rule
  intersection_rule := parent.intersection_rule.mergeWith
    child.intersection_rule
  fill_color := parent.fill_color.mergeWith child.fill_color
  stroke_color := parent.stroke_color.mergeWith child.stroke_color
  stroke_width := parent.stroke_width.mergeWith child.stroke_width
  stroke_opacity := parent.stroke_opacity.mergeWith child.stroke_opacity

/-- An element of the `want` set built by `resolve_paint_rule`: the strings
`"stroke"`/`"fill"`, an `IntersectionRule` member, or the `INHERIT`
sentinel (which an unset intersection rule inserts). -/
inductive WantElem where
  | stroke | fill | ruleNonzero | ruleEvenodd | ruleInherit
deriving DecidableEq

/-- The `want`-set element contributed by `self.intersection_rule`. -/
def ruleElem : InheritOr IntersectionRule → WantElem
  | .inherit => .ruleInherit
  | .val .nonzero => .ruleNonzero
  | .val .evenodd => .ruleEvenodd

/-- The `want` set of `resolve_paint_rule`: `"stroke"` iff both
`stroke_width` and `stroke_color` are not `None`; `"fill"` plus the
intersection rule iff `fill_color` is not `None` (the source `assert
self.intersection_rule is not None` always holds because the setter never
stores `None`). -/
def GraphicsStyle.want (s : GraphicsStyle) : Finset WantElem :=
  let w0 : Finset WantElem := ∅
  let w1 := if ¬ s.stroke_width.isNone ∧ ¬ s.stroke_color.isNone
    then insert WantElem.stroke w0 else w0
  if ¬ s.fill_color.isNone
    then insert (ruleElem s.intersection_rule) (insert WantElem.fill w1)
    else w1

/-- `GraphicsStyle._PAINT_RULE_LOOKUP`: the fixed six-entry table. -/
def PAINT_RULE_LOOKUP (s : Finset WantElem) : Option PathPaintRule :=
  if s = ∅ then some .dontPaint
  else if s = {WantElem.stroke} then some .stroke
  else if s = {WantElem.fill, WantElem.ruleNonzero} then some .fillNonzero
  else if s = {WantElem.fill, WantElem.ruleEvenodd} then some .fillEvenodd
  else if s = {WantElem.stroke, WantElem.fill, WantElem.ruleNonzero}
    then some .strokeFillNonzero
  else if s = {WantElem.stroke, WantElem.fill, WantElem.ruleEvenodd}
    then some .strokeFillEvenodd
  else none

/-- `GraphicsStyle.resolve_paint_rule()`: resolve `AUTO` through the lookup
table with the `STROKE_FILL_NONZERO` fallback; `INHERIT` (reachable only
through API abuse) also falls back to `STROKE_FILL_NONZERO`; anything else
is returned as-is. -/
def GraphicsStyle.resolve_paint_rule (s : GraphicsStyle) : PathPaintRule :=
  match s.paint_rule with
  | .val .auto => (PAINT_RULE_LOOKUP s.want).getD .strokeFillNonzero
  | .inherit => .strokeFillNonzero
  | .val r => r

/-- C2: on `AUTO`, the resolved paint rule is exactly the table value of
the `want` set built from stroke presence (both `stroke_width` and
`stroke_color` non-`None`), fill presence (`fill_color` non-`None`) and the
intersection rule; a combination missing from the six-entry table (which
happens exactly when fill is present with an unset intersection rule)
defaults to `STROKE_FILL_NONZERO`, never to `DONT_PAINT`. -/
theorem resolve_paint_rule_auto (s : GraphicsStyle)
    (h : s.paint_rule = .val .auto) :
    (s.resolve_paint_rule =
      if ¬ s.stroke_width.isNone ∧ ¬ s.stroke_color.isNone then
        (if ¬ s.fill_color.isNone then
          (match s.intersection_rule with
           | .val .nonzero => PathPaintRule.strokeFillNonzero
           | .val .evenodd => PathPaintRule.strokeFillEvenodd
           | .inherit => PathPaintRule.strokeFillNonzero)
         else PathPaintRule.stroke)
      else
        (if ¬ s.fill_color.isNone then
          (match s.intersection_rule with
           | .val .nonzero => PathPaintRule.fillNonzero
           | .val .evenodd => PathPaintRule.fillEvenodd
           | .inherit => PathPaintRule.strokeFillNonzero)
         else PathPaintRule.dontPaint)) ∧
    (PAINT_RULE_LOOKUP s.want = none →
      s.resolve_paint_rule = .strokeFillNonzero) := by
  have hres : s.resolve_paint_rule =
      (PAINT_RULE_LOOKUP s.want).getD .strokeFillNonzero := by
    unfold GraphicsStyle.resolve_paint_rule
    rw [h]
  refine ⟨?_, fun hmiss => by rw [hres, hmiss]; rfl⟩
  by_cases hsw : ¬ s.stroke_width.isNone ∧ ¬ s.stroke_color.isNone
  · by_cases hf : ¬ s.fill_color.isNone
    · have hw : s.want = insert (ruleElem s.intersection_rule)
          (insert WantElem.fill (insert WantElem.stroke ∅)) := by
        unfold GraphicsStyle.want
        simp only [if_pos hsw, if_pos hf]
      rw [hres, hw, if_pos hsw, if_pos hf]
      rcases s.intersection_rule with _ | ir
      · decide
      · cases ir <;> decide
    · have hw : s.want = insert WantElem.stroke ∅ := by
        unfold GraphicsStyle.want
        simp only [if_pos hsw, if_neg hf]
      rw [hres, hw, if_pos hsw, if_neg hf]
      decide
  · by_cases hf : ¬ s.fill_color.isNone
    · have hw : s.want = insert (ruleElem s.intersection_rule)
          (insert WantElem.fill ∅) := by
        unfold GraphicsStyle.want
        simp only [if_neg hsw, if_pos hf]
      rw [hres, hw, if_neg hsw, if_pos hf]
      rcases s.intersection_rule with _ | ir
      · decide
      · cases ir <;> decide
    · have hw : s.want = ∅ := by
        unfold GraphicsStyle.want
        simp only [if_neg hsw, if_neg hf]
      rw [hres, hw, if_neg hsw, if_neg hf]
      decide

/-- C2 (witness): an `AUTO` style with stroke width 4, a stroke color, and
no fill color resolves to plain `STROKE`. -/
theorem resolve_paint_rule_auto_witness :
    GraphicsStyle.resolve_paint_rule
      ⟨.val .auto, .val .nonzero, .none, .val (.gray 0 none), .val 4,
        .inherit⟩ = .stroke := by
  have h := resolve_paint_rule_auto
    ⟨.val .auto, .val .nonzero, .none, .val (.gray 0 none), .val 4,
      .inherit⟩ rfl
  rw [h.1]
  simp [StyleProp.isNone]

/-! ## Path elements (`fpdf/drawing.py`)

The decompositions of `RoundedRectangle._decompose` and
`Ellipse._decompose` only ever emit the five element kinds
`Move`/`Line`/`Arc`/`Rectangle`/`Close`, so those five are grouped in
`SimplePathElem`; the remaining modelled elements sit alongside them in
`PathElem`.  `Arc.bounding_box` approximates the arc with a Bézier fan
through trigonometric float computations; no claim in this development
evaluates such a bounding box, so the arc bounding-box semantics is an
explicit parameter `arcBB` and every theorem holds for all of them. -/

/-- The element kinds that `_decompose` can emit. -/
inductive SimplePathElem where
  | move (pt : Point)
  | line (pt : Point)
  | rect (org size : Point)
  | arc (radii : Point) (rotation : ℝ) (large sweep : Bool) (endPt : Point)
  | close

/-- The modelled path elements. -/
inductive PathElem where
  | simple (e : SimplePathElem)
  | relativeMove (pt : Point)
  | implicitClose
  | roundedRect (org size corner_radii : Point)
  | ellipse (radii center : Point)

/-- The type of an `Arc.bounding_box` semantics:
`(radii, rotation, large, sweep, end, start) ↦ (bbox, end point)`. -/
def ArcBBFn : Type :=
  Point → ℝ → Bool → Bool → Point → Point → BoundingBox × Point

/-- Python's builtin `min` over a non-empty list of floats, folded left
with the running minimum as in CPython. -/
def realMinList (c : ℝ) : List ℝ → ℝ
  | [] => c
  | x :: t => realMinList (min c x) t

/-- Python's builtin `max` over a non-empty list of floats. -/
def realMaxList (c : ℝ) : List ℝ → ℝ
  | [] => c
  | x :: t => realMaxList (max c x) t

/-- `BoundingBox.from_points`: the axis-wise min/max of a point list.  The
source raises on an empty list (`min([])`); it is never called with one, so
the empty case maps to the empty box. -/
def BoundingBox.from_points : List Point → BoundingBox
  | [] => BoundingBox.empty
  | p :: t =>
      ⟨.fin (realMinList p.x (t.map Point.x)),
       .fin (realMinList p.y (t.map Point.y)),
       .fin (realMaxList p.x (t.map Point.x)),
       .fin (realMaxList p.y (t.map Point.y))⟩

/-- The x-coordinate of `Point.__matmul__` in float arithmetic:
`a·x + c·y + e`, left-associated as Python evaluates it. -/
noncomputable def Fl.affineX (tf : Transform) (x y : Fl) : Fl :=
  (((Fl.fin tf.a).mul x).add ((Fl.fin tf.c).mul y)).add (.fin tf.e)

/-- The y-coordinate of `Point.__matmul__` in float arithmetic. -/
noncomputable def Fl.affineY (tf : Transform) (x y : Fl) : Fl :=
  (((Fl.fin tf.b).mul x).add ((Fl.fin tf.d).mul y)).add (.fin tf.f)

open Classical in
/-- Python's builtin `min` over a float list with a running first value
(`nan`/`inf` propagate exactly as the comparison semantics dictate). -/
noncomputable def Fl.listMin (c : Fl) : List Fl → Fl
  | [] => c
  | x :: t => Fl.listMin (if Fl.lt x c then x else c) t

open Classical in
/-- Python's builtin `max` over a float list with a running first value. -/
noncomputable def Fl.listMax (c : Fl) : List Fl → Fl
  | [] => c
  | x :: t => Fl.listMax (if Fl.lt c x then x else c) t

/-- `BoundingBox.transformed()`: map the four corners through the
transform and re-derive the box (the corner arithmetic is float
arithmetic, so an empty sentinel box turns into a `nan` box, which is
invalid and therefore ignored by any later merge). -/
noncomputable def BoundingBox.transformed (bb : BoundingBox)
    (tf : Transform) : BoundingBox :=
  let c1x := Fl.affineX tf bb.x0 bb.y0
  let c1y := Fl.affineY tf bb.x0 bb.y0
  let c2x := Fl.affineX tf bb.x1 bb.y0
  let c2y := Fl.affineY tf bb.x1 bb.y0
  let c3x := Fl.affineX tf bb.x0 bb.y1
  let c3y := Fl.affineY tf bb.x0 bb.y1
  let c4x := Fl.affineX tf bb.x1 bb.y1
  let c4y := Fl.affineY tf bb.x1 bb.y1
  ⟨Fl.listMin c1x [c2x, c3x, c4x], Fl.listMin c1y [c2y, c3y, c4y],
   Fl.listMax c1x [c2x, c3x, c4x], Fl.listMax c1y [c2y, c3y, c4y]⟩

/-- `BoundingBox.expanded(dx, dy)`. -/
def BoundingBox.expanded (bb : BoundingBox) (dx dy : ℝ) : BoundingBox :=
  ⟨bb.x0.sub (.fin dx), bb.y0.sub (.fin dy),
   bb.x1.add (.fin dx), bb.y1.add (.fin dy)⟩

/-- The bounding box and new current point of one simple element:
`Move`/`Line`/`Rectangle`/`Arc`/`Close` `.bounding_box(start)`. -/
noncomputable def simpleBB (arcBB : ArcBBFn) :
    SimplePathElem → Point → BoundingBox × Point
  | .move pt, _ => (BoundingBox.empty, pt)
  | .line pt, start => (BoundingBox.from_points [start, pt], pt)
  | .rect org size, _ =>
      (BoundingBox.from_points
        [⟨org.x, org.y⟩, ⟨org.x + size.x, org.y⟩,
         ⟨org.x, org.y + size.y⟩, ⟨org.x + size.x, org.y + size.y⟩], org)
  | .arc radii rotation large sweep endPt, start =>
      arcBB radii rotation large sweep endPt start
  | .close, start => (BoundingBox.empty, start)

open Classical in
/-- `RoundedRectangle._decompose()`. -/
noncomputable def RoundedRectangle_decompose (org size corner_radii : Point) :
    List SimplePathElem :=
  if size.x = 0 ∧ size.y = 0 then []
  else if size.x = 0 ∨ size.y = 0 then
    [.move org, .line ⟨org.x + size.x, org.y + size.y⟩, .close]
  else if corner_radii.x = 0 ∨ corner_radii.y = 0 then
    [.rect org size]
  else
    let x := org.x
    let y := org.y
    let w := size.x
    let h := size.y
    let sign_width : ℝ := if 0 ≤ size.x then 1 else -1
    let sign_height : ℝ := if 0 ≤ size.y then 1 else -1
    let rx0 := if |w| < |corner_radii.x| then size.x else corner_radii.x
    let ry0 := if |h| < |corner_radii.y| then size.y else corner_radii.y
    let rx := sign_width * |rx0|
    let ry := sign_height * |ry0|
    let arc_rad : Point := ⟨rx, ry⟩
    [.move ⟨x + rx, y⟩,
     .line ⟨x + w - rx, y⟩,
     .arc arc_rad 0 false true ⟨x + w, y + ry⟩,
     .line ⟨x + w, y + h - ry⟩,
     .arc arc_rad 0 false true ⟨x + w - rx, y + h⟩,
     .line ⟨x + rx, y + h⟩,
     .arc arc_rad 0 false true ⟨x, y + h - ry⟩,
     .line ⟨x, y + ry⟩,
     .arc arc_rad 0 false true ⟨x + rx, y⟩,
     .close]

open Classical in
/-- `Ellipse._decompose()`. -/
noncomputable def Ellipse_decompose (radii center : Point) :
    List SimplePathElem :=
  let rx := |radii.x|
  let ry := |radii.y|
  let cx := center.x
  let cy := center.y
  let arc_rad : Point := ⟨rx, ry⟩
  if rx ≠ 0 ∧ ry ≠ 0 then
    [.move ⟨cx + rx, cy⟩,
     .arc arc_rad 0 false true ⟨cx, cy + ry⟩,
     .arc arc_rad 0 false true ⟨cx - rx, cy⟩,
     .arc arc_rad 0 false true ⟨cx, cy - ry⟩,
     .arc arc_rad 0 false true ⟨cx + rx, cy⟩,
     .close]
  else []

/-- The replay loop of `RoundedRectangle.bounding_box` and
`Ellipse.bounding_box`: merge each decomposed element's bounding box while
threading the current point. -/
noncomputable def pathListBB (arcBB : ArcBBFn) (items : List SimplePathElem)
    (start : Point) : BoundingBox × Point :=
  items.foldl (fun acc item =>
    let r := simpleBB arcBB item acc.2
    (acc.1.merge r.1, r.2)) (BoundingBox.empty, start)

/-- `bounding_box(start)` of every modelled path element. -/
noncomputable def elemBB (arcBB : ArcBBFn) :
    PathElem → Point → BoundingBox × Point
  | .simple e, start => simpleBB arcBB e start
  | .relativeMove pt, start => (BoundingBox.empty, start.add pt)
  | .implicitClose, start => (BoundingBox.empty, start)
  | .roundedRect org size cr, start =>
      ((pathListBB arcBB (RoundedRectangle_decompose org size cr) start).1,
        org)
  | .ellipse radii center, start =>
      ((pathListBB arcBB (Ellipse_decompose radii center) start).1, center)

open Classical in
/-- C9: the pen-up elements `Move`, `RelativeMove`, `Close` and
`ImplicitClose` all report the empty sentinel bounding box — while the
moves still advance the returned current point — and merging the empty box
into any box leaves a valid box unchanged, so pen-up elements never
contribute geometry. -/
theorem penup_elements_empty_bbox (arcBB : ArcBBFn) (start pt : Point) :
    elemBB arcBB (.simple (.move pt)) start = (BoundingBox.empty, pt) ∧
    elemBB arcBB (.relativeMove pt) start =
      (BoundingBox.empty, start.add pt) ∧
    elemBB arcBB (.simple .close) start = (BoundingBox.empty, start) ∧
    elemBB arcBB .implicitClose start = (BoundingBox.empty, start) ∧
    (∀ B : BoundingBox, B.merge BoundingBox.empty =
      if B.is_valid then B else BoundingBox.empty) := by
  have hempty : ¬ BoundingBox.empty.is_valid := by
    simp [BoundingBox.is_valid, BoundingBox.empty, Fl.le]
  refine ⟨rfl, rfl, rfl, rfl, ?_⟩
  intro B
  by_cases h : B.is_valid
  · rw [BoundingBox.merge, if_neg (not_not_intro h), if_pos hempty,
      if_pos h]
  · rw [BoundingBox.merge, if_pos h, if_neg h]

open Classical in
/-- C8: a rounded rectangle with zero width and zero height, and an
ellipse with a zero x- or y-radius, decompose to nothing, so their
`bounding_box` is the empty sentinel (while the returned current point is
the element's anchor); merging that result into any valid box changes
nothing.  This holds for every arc semantics, since the degenerate
branches emit no arcs. -/
theorem degenerate_shapes_empty_bbox (arcBB : ArcBBFn)
    (start org size cr radii center : Point)
    (hsz : size.x = 0 ∧ size.y = 0) (hrad : radii.x = 0 ∨ radii.y = 0) :
    elemBB arcBB (.roundedRect org size cr) start =
      (BoundingBox.empty, org) ∧
    elemBB arcBB (.ellipse radii center) start =
      (BoundingBox.empty, center) ∧
    (∀ B : BoundingBox, B.is_valid → B.merge BoundingBox.empty = B) := by
  have hempty : ¬ BoundingBox.empty.is_valid := by
    simp [BoundingBox.is_valid, BoundingBox.empty, Fl.le]
  refine ⟨?_, ?_, ?_⟩
  · have hdec : RoundedRectangle_decompose org size cr = [] := by
      rw [RoundedRectangle_decompose, if_pos hsz]
    show ((pathListBB arcBB (RoundedRectangle_decompose org size cr)
      start).1, org) = _
    rw [hdec]
    rfl
  · have hdec : Ellipse_decompose radii center = [] := by
      have hcon : ¬ (|radii.x| ≠ 0 ∧ |radii.y| ≠ 0) := by
        rcases hrad with h | h
        · exact fun hc => hc.1 (by rw [h]; simp)
        · exact fun hc => hc.2 (by rw [h]; simp)
      simp only [Ellipse_decompose]
      rw [if_neg hcon]
    show ((pathListBB arcBB (Ellipse_decompose radii center) start).1,
      center) = _
    rw [hdec]
    rfl
  · intro B hB
    rw [BoundingBox.merge, if_neg (not_not_intro hB), if_pos hempty]

/-- C8 (witness): the theorem at a fully degenerate rounded rectangle of
size `(0, 0)` and an ellipse with x-radius `0`, with an arbitrary concrete
arc semantics. -/
theorem degenerate_shapes_empty_bbox_witness :
    elemBB (fun _ _ _ _ _ p => (BoundingBox.empty, p))
        (.roundedRect ⟨1, 2⟩ ⟨0, 0⟩ ⟨3, 3⟩) ⟨0, 0⟩ =
      (BoundingBox.empty, ⟨1, 2⟩) ∧
    elemBB (fun _ _ _ _ _ p => (BoundingBox.empty, p))
        (.ellipse ⟨0, 5⟩ ⟨2, 2⟩) ⟨0, 0⟩ =
      (BoundingBox.empty, ⟨2, 2⟩) := by
  have h := degenerate_shapes_empty_bbox
    (fun _ _ _ _ _ p => (BoundingBox.empty, p)) ⟨0, 0⟩ ⟨1, 2⟩ ⟨0, 0⟩
    ⟨3, 3⟩ ⟨0, 5⟩ ⟨2, 2⟩ ⟨rfl, rfl⟩ (Or.inl rfl)
  exact ⟨h.1, h.2.1⟩

/-! ## Stroke expansion and the context-tree bounding box
(`fpdf/drawing.py`, `BoundingBox.expanded_to_stroke` and
`GraphicsContext.bounding_box`) -/

/-- The numeric stroke-opacity guard of `expanded_to_stroke`: an explicitly
set opacity `<= 0` suppresses the expansion; `INHERIT` and `None` do not
(the source skips the check for them, and its `try/except` never fires in
the numeric model). -/
def strokeOpacityZero (s : GraphicsStyle) : Prop :=
  match s.stroke_opacity with
  | .val so => so ≤ 0
  | _ => False

/-- The effective stroke width of `expanded_to_stroke`: the set value, or
the PDF default `1.0` when the width is `None` or `INHERIT`. -/
def strokeWidthOf (s : GraphicsStyle) : ℝ :=
  match s.stroke_width with
  | .val w => w
  | _ => 1

open Classical in
/-- `BoundingBox.expanded_to_stroke(style, row_norms)`: expand by half the
effective stroke width scaled by the per-axis row norms, but only when the
resolved paint rule strokes, the stroke opacity is not explicitly `<= 0`,
and the width is non-zero. -/
noncomputable def BoundingBox.expanded_to_stroke (bb : BoundingBox)
    (style : GraphicsStyle) (row_norms : ℝ × ℝ := (1, 1)) : BoundingBox :=
  if ¬ (style.resolve_paint_rule = PathPaintRule.stroke ∨
        style.resolve_paint_rule = PathPaintRule.strokeFillNonzero ∨
        style.resolve_paint_rule = PathPaintRule.strokeFillEvenodd) then bb
  else if strokeOpacityZero style then bb
  else if strokeWidthOf style = 0 then bb
  else
    bb.expanded (0.5 * strokeWidthOf style * row_norms.1)
      (0.5 * strokeWidthOf style * row_norms.2)

/-- An item of a `GraphicsContext`: a path element or a nested context
(with its own style delta, optional local transform and children). -/
inductive GCItem where
  | elem (e : PathElem)
  | context (style : GraphicsStyle) (transform : Option Transform)
      (items : List GCItem)

mutual
/-- The recursive `walk` of `GraphicsContext.bounding_box`: compose the
accumulated transform with the local one, merge the ambient style, then
fold the items. -/
noncomputable def walkCtx (arcBB : ArcBBFn) (style : GraphicsStyle)
    (transform : Option Transform) (items : List GCItem) (current : Point)
    (ambient : Option GraphicsStyle) (accum : Transform) :
    BoundingBox × Point × ℝ × ℝ :=
  let tf := accum.matmul (transform.getD Transform.identity)
  let merged := match ambient with
    | some a => GraphicsStyle.merge a style
    | none => style
  walkItems arcBB merged tf items current BoundingBox.empty
    tf.row_norms.1 tf.row_norms.2
termination_by (sizeOf items, 1)

/-- The item loop of `walk`: a nested context recurses (its box is already
in this space) and contributes its row-norm maxima; a leaf element's local
box is transformed into the accumulated space and merged. -/
noncomputable def walkItems (arcBB : ArcBBFn) (ms : GraphicsStyle)
    (tf : Transform) : List GCItem → Point → BoundingBox → ℝ → ℝ →
    BoundingBox × Point × ℝ × ℝ
  | [], p, b, nx, ny => (b, p, nx, ny)
  | .context s t its :: rest, p, b, nx, ny =>
      let r := walkCtx arcBB s t its p (some ms) tf
      walkItems arcBB ms tf rest r.2.1 (b.merge r.1)
        (max nx r.2.2.1) (max ny r.2.2.2)
  | .elem e :: rest, p, b, nx, ny =>
      let r := elemBB arcBB e p
      walkItems arcBB ms tf rest r.2 (b.merge (r.1.transformed tf)) nx ny
termination_by l => (sizeOf l, 0)
end

/-- The modelled `GraphicsContext`: style delta, optional local transform,
ordered children. -/
structure GraphicsContext where
  style : GraphicsStyle
  transform : Option Transform
  path_items : List GCItem

/-- `GraphicsContext.bounding_box(start, style, expand_for_stroke)`: walk
the tree from the identity transform, then expand once at this level for
the effective style, using the worst-case row norms seen in the subtree. -/
noncomputable def GraphicsContext.bounding_box (ctx : GraphicsContext)
    (arcBB : ArcBBFn) (start : Point)
    (style : Option GraphicsStyle := none)
    (expand_for_stroke : Bool := true) : BoundingBox × Point :=
  let r := walkCtx arcBB ctx.style ctx.transform ctx.path_items start style
    Transform.identity
  if expand_for_stroke then
    let effective := match style with
      | some st => GraphicsStyle.merge st ctx.style
      | none => ctx.style
    (r.1.expanded_to_stroke effective (r.2.2.1, r.2.2.2), r.2.1)
  else (r.1, r.2.1)

open Classical in
/-- C4: stroke expansion adds exactly half the resolved stroke width,
scaled per axis by the CTM row norms, and only when the resolved paint
rule strokes and the stroke opacity is not explicitly zero; in particular
a rectangle at `(1, 2)` of size `(3, 4)` stroked with width `4` and no
fill under the identity transform gets the bounding box
`(-1, 0, 6, 8)` — the geometric box `(1, 2, 4, 6)` inflated by exactly `2`
on every side — for every arc semantics (none is consulted). -/
theorem stroke_expansion_spec (bb : BoundingBox) (style : GraphicsStyle)
    (nx ny : ℝ) :
    ((style.resolve_paint_rule = PathPaintRule.stroke ∨
      style.resolve_paint_rule = PathPaintRule.strokeFillNonzero ∨
      style.resolve_paint_rule = PathPaintRule.strokeFillEvenodd) →
     ¬ strokeOpacityZero style → strokeWidthOf style ≠ 0 →
     bb.expanded_to_stroke style (nx, ny) =
       ⟨bb.x0.sub (.fin (strokeWidthOf style / 2 * nx)),
        bb.y0.sub (.fin (strokeWidthOf style / 2 * ny)),
        bb.x1.add (.fin (strokeWidthOf style / 2 * nx)),
        bb.y1.add (.fin (strokeWidthOf style / 2 * ny))⟩) ∧
    (¬ (style.resolve_paint_rule = PathPaintRule.stroke ∨
        style.resolve_paint_rule = PathPaintRule.strokeFillNonzero ∨
        style.resolve_paint_rule = PathPaintRule.strokeFillEvenodd) →
      bb.expanded_to_stroke style (nx, ny) = bb) ∧
    (strokeOpacityZero style → bb.expanded_to_stroke style (nx, ny) = bb) ∧
    (∀ arcBB : ArcBBFn,
      GraphicsContext.bounding_box
        ⟨⟨.val .auto, .val .nonzero, .none, .val (.gray 0 none), .val 4,
           .inherit⟩, none, [.elem (.simple (.rect ⟨1, 2⟩ ⟨3, 4⟩))]⟩
        arcBB ⟨0, 0⟩ none true =
      (⟨.fin (-1), .fin 0, .fin 6, .fin 8⟩, ⟨1, 2⟩)) := by
  refine ⟨?_, ?_, ?_, ?_⟩
  · intro hrule hop hw
    rw [BoundingBox.expanded_to_stroke, if_neg (not_not_intro hrule),
      if_neg hop, if_neg hw]
    have harith : ∀ t : ℝ, 0.5 * strokeWidthOf style * t =
        strokeWidthOf style / 2 * t := fun t => by ring
    rw [BoundingBox.expanded, harith nx, harith ny]
  · intro hrule
    rw [BoundingBox.expanded_to_stroke, if_pos hrule]
  · intro hop
    by_cases hrule : style.resolve_paint_rule = PathPaintRule.stroke ∨
        style.resolve_paint_rule = PathPaintRule.strokeFillNonzero ∨
        style.resolve_paint_rule = PathPaintRule.strokeFillEvenodd
    · rw [BoundingBox.expanded_to_stroke, if_neg (not_not_intro hrule),
        if_pos hop]
    · rw [BoundingBox.expanded_to_stroke, if_pos hrule]
  · intro arcBB
    have hempty : ¬ BoundingBox.empty.is_valid := by
      simp [BoundingBox.is_valid, BoundingBox.empty, Fl.le]
    have htf : Transform.identity.matmul
        ((none : Option Transform).getD Transform.identity) =
        Transform.identity := by
      norm_num [Transform.matmul, Transform.identity, Option.getD]
    have hnorms : Transform.identity.row_norms = (1, 1) := by
      norm_num [Transform.row_norms, Transform.identity, Real.sqrt_one]
    have hfp : BoundingBox.from_points
        [⟨1, 2⟩, ⟨1 + 3, 2⟩, ⟨1, 2 + 4⟩, ⟨1 + 3, 2 + 4⟩] =
        ⟨.fin 1, .fin 2, .fin 4, .fin 6⟩ := by
      norm_num [BoundingBox.from_points, realMinList, realMaxList,
        List.map, min_def, max_def]
    have htrans : BoundingBox.transformed ⟨.fin 1, .fin 2, .fin 4, .fin 6⟩
        Transform.identity = ⟨.fin 1, .fin 2, .fin 4, .fin 6⟩ := by
      norm_num [BoundingBox.transformed, Fl.affineX, Fl.affineY,
        Transform.identity, Fl.mul, Fl.add, Fl.listMin, Fl.listMax, Fl.lt]
    have hmerge : BoundingBox.empty.merge ⟨.fin 1, .fin 2, .fin 4, .fin 6⟩ =
        ⟨.fin 1, .fin 2, .fin 4, .fin 6⟩ := by
      rw [BoundingBox.merge, if_pos hempty]
    have hrule : GraphicsStyle.resolve_paint_rule
        ⟨.val .auto, .val .nonzero, .none, .val (.gray 0 none), .val 4,
          .inherit⟩ = PathPaintRule.stroke := by
      decide
    rw [GraphicsContext.bounding_box, walkCtx, htf, hnorms]
    rw [walkItems]
    simp only [elemBB, simpleBB]
    rw [hfp, htrans, hmerge, walkItems]
    simp only [if_pos]
    rw [BoundingBox.expanded_to_stroke,
      if_neg (not_not_intro (Or.inl hrule)),
      if_neg (show ¬ strokeOpacityZero _ by simp [strokeOpacityZero]),
      if_neg (show strokeWidthOf ⟨.val .auto, .val .nonzero, .none,
        .val (.gray 0 none), .val 4, .inherit⟩ ≠ 0 by
          norm_num [strokeWidthOf])]
    norm_num [BoundingBox.expanded, Fl.sub, Fl.add, Fl.neg, strokeWidthOf]

/-- C4 (witness): the expansion conjunct of the theorem applied to the box
`(1, 2, 4, 6)` with the width-4 stroke-only style and unit row norms. -/
theorem stroke_expansion_spec_witness :
    (BoundingBox.mk (.fin 1) (.fin 2) (.fin 4) (.fin 6)).expanded_to_stroke
        ⟨.val .auto, .val .nonzero, .none, .val (.gray 0 none), .val 4,
          .inherit⟩ (1, 1) =
      ⟨.fin (-1), .fin 0, .fin 6, .fin 8⟩ := by
  have h := stroke_expansion_spec ⟨.fin 1, .fin 2, .fin 4, .fin 6⟩
    ⟨.val .auto, .val .nonzero, .none, .val (.gray 0 none), .val 4,
      .inherit⟩ 1 1
  have hs := h.1 (Or.inl (by decide)) (by simp [strokeOpacityZero])
    (by norm_num [strokeWidthOf])
  rw [hs]
  norm_num [strokeWidthOf, Fl.sub, Fl.add, Fl.neg]

end Fpdf2
